import Mathlib

/-!
Verification of the `tui-big-text` rendering library (src/lib.rs).

The development shallowly embeds the library: `u16`/`u8` machine integers are
modelled as `Nat` (all quantities here are small and non-wrapping), the ratatui
`Buffer` is a total function from coordinates to cells, and the font8x8 lookup
is an explicit `Char → Option Glyph` parameter, following the spec's treatment
of the font as an external capability.
-/

namespace TuiBigText

/-- A rectangle in the destination grid, modelling `ratatui::layout::Rect`
(fields x, y, width, height; `u16` coordinates modelled as `Nat`). -/
structure Rect where
  x : Nat
  y : Nat
  width : Nat
  height : Nat
deriving DecidableEq

/-- Model of `Rect::left`. -/
def Rect.left (r : Rect) : Nat := r.x

/-- Model of `Rect::right`. -/
def Rect.right (r : Rect) : Nat := r.x + r.width

/-- Model of `Rect::top`. -/
def Rect.top (r : Rect) : Nat := r.y

/-- Model of `Rect::bottom`. -/
def Rect.bottom (r : Rect) : Nat := r.y + r.height

/-- Model of `ratatui::style::Style`. Style data is opaque to this crate (it is
only copied around and patched), so it is modelled as a single optional
attribute. -/
structure Style where
  fg : Option Nat
deriving DecidableEq

/-- Model of `Style::patch`: fields that are set in the argument override the
corresponding fields of `self`. -/
def Style.patch (s t : Style) : Style :=
  ⟨match t.fg with
    | some v => some v
    | none => s.fg⟩

/-- Model of `Style::default()`: no attribute set. -/
def Style.defaultStyle : Style := ⟨none⟩

/-- One terminal cell of a ratatui `Buffer`: a display symbol and a style. -/
structure Cell where
  symbol : Char
  style : Style
deriving DecidableEq

/-- The destination cell grid (ratatui `Buffer`), modelled as a total function
from coordinates to cells. -/
def Buffer : Type := Nat → Nat → Cell

/-- Whether the point `(px, py)` lies inside the rectangle `r`. -/
def inRect (r : Rect) (px py : Nat) : Prop :=
  r.left ≤ px ∧ px < r.right ∧ r.top ≤ py ∧ py < r.bottom

instance (r : Rect) (px py : Nat) : Decidable (inRect r px py) := by
  unfold inRect; infer_instance

/-- Model of `Cell::set_char` through `Buffer::get_mut`: set the symbol of one
cell, leaving its style (and every other cell) unchanged. -/
def Buffer.setChar (buf : Buffer) (x y : Nat) (c : Char) : Buffer :=
  fun px py => if px = x ∧ py = y then { buf px py with symbol := c } else buf px py

/-- Model of `Buffer::set_style`: patch the style of every cell inside the
rectangle (ratatui iterates the area calling `Cell::set_style`, which patches the
cell's style and leaves the symbol alone). -/
def Buffer.setStyleRect (buf : Buffer) (r : Rect) (s : Style) : Buffer :=
  fun px py =>
    if inRect r px py then { buf px py with style := (buf px py).style.patch s }
    else buf px py

/-- `PixelSize` (src/lib.rs 55-70). -/
inductive PixelSize where
  | Full
  | HalfHeight
  | HalfWidth
  | Quadrant
  | ThirdHeight
  | Sextant
deriving DecidableEq

/-- `pixels_per_cell` (src/lib.rs 149-158). -/
def pixels_per_cell (size : PixelSize) : Nat × Nat :=
  match size with
  | .Full => (1, 1)
  | .HalfHeight => (1, 2)
  | .HalfWidth => (2, 1)
  | .Quadrant => (2, 2)
  | .ThirdHeight => (1, 3)
  | .Sextant => (2, 3)

/-- `u16::div_ceil` on the `Nat` model. -/
def divCeil (a b : Nat) : Nat := (a + b - 1) / b

/-- Rust `(lo..hi).step_by(step)` as a list: the values `lo, lo + step, …`
below `hi`. -/
def stepBy (lo hi step : Nat) : List Nat :=
  List.range' lo (divCeil (hi - lo) step) step

/-- `layout` (src/lib.rs 163-186): the grid of layout cells it returns. The
source additionally executes a `println!` when `pixel_size` is `Sextant`; that
output is modelled separately by `layoutStdout`. -/
def layout (area : Rect) (pixel_size : PixelSize) : List (List Rect) :=
  let sxy := pixels_per_cell pixel_size
  let width := divCeil 8 sxy.1
  let height := divCeil 8 sxy.2
  (stepBy area.top area.bottom height).map fun y =>
    (stepBy area.left area.right width).map fun x =>
      Rect.mk x y (min (area.right - x) width) (min (area.bottom - y) height)

/-- The text `layout` prints to stdout (src/lib.rs 171-173): the source runs
`println!("width: {},   height: {}", width, height)` if and only if
`pixel_size` is `Sextant`. -/
def layoutStdout (pixel_size : PixelSize) : List String :=
  let sxy := pixels_per_cell pixel_size
  let width := divCeil 8 sxy.1
  let height := divCeil 8 sxy.2
  match pixel_size with
  | .Sextant => [s!"width: {width},   height: {height}"]
  | _ => []

/-- `get_symbol_half_height` (src/lib.rs 199-210). -/
def get_symbol_half_height (top bottom : Nat) : Char :=
  match top with
  | 0 =>
    match bottom with
    | 0 => ' '
    | _ => '▄'
  | _ =>
    match bottom with
    | 0 => '▀'
    | _ => '█'

/-- `get_symbol_half_width` (src/lib.rs 213-224). -/
def get_symbol_half_width (left right : Nat) : Char :=
  match left with
  | 0 =>
    match right with
    | 0 => ' '
    | _ => '▐'
  | _ =>
    match right with
    | 0 => '▌'
    | _ => '█'

/-- The 16-entry quadrant symbol table `QUADRANT_SYMBOLS` (src/lib.rs 242-244). -/
def QUADRANT_SYMBOLS : List Char :=
  [' ', '▘', '▝', '▀', '▖', '▌', '▞', '▛', '▗', '▚', '▐', '▜', '▄', '▙', '▟', '█']

/-- `get_symbol_quadrant_size` (src/lib.rs 227-248). Rust's panicking array
index is modelled by `List.getD` with an arbitrary default; the computed index
is at most 15, so the default is never consulted. -/
def get_symbol_quadrant_size (top_left top_right bottom_left bottom_right : Nat) : Char :=
  let top_left := if top_left > 0 then 1 else 0
  let top_right := if top_right > 0 then 1 else 0
  let bottom_left := if bottom_left > 0 then 1 else 0
  let bottom_right := if bottom_right > 0 then 1 else 0
  let character_index := top_left + (top_right <<< 1) + (bottom_left <<< 2) + (bottom_right <<< 3)
  QUADRANT_SYMBOLS.getD character_index ' '

/-- The 64-entry sextant symbol table `SEXANT_SYMBOLS` (src/lib.rs 271-276). -/
def SEXANT_SYMBOLS : List Char :=
  [' ', '🬀', '🬁', '🬂', '🬃', '🬄', '🬅', '🬆', '🬇', '🬈', '🬉', '🬊', '🬋', '🬌', '🬍', '🬎', '🬏', '🬐',
   '🬑', '🬒', '🬓', '▌', '🬔', '🬕', '🬖', '🬗', '🬘', '🬙', '🬚', '🬛', '🬜', '🬝', '🬞', '🬟', '🬠', '🬡',
   '🬢', '🬣', '🬤', '🬥', '🬦', '🬧', '▐', '🬨', '🬩', '🬪', '🬫', '🬬', '🬭', '🬮', '🬯', '🬰', '🬱', '🬲',
   '🬳', '🬴', '🬵', '🬶', '🬷', '🬸', '🬹', '🬺', '🬻', '█']

/-- `get_symbol_sextantant_size` (src/lib.rs 251-285). -/
def get_symbol_sextantant_size
    (top_left top_right middle_left middle_right bottom_left bottom_right : Nat) : Char :=
  let top_left := if top_left > 0 then 1 else 0
  let top_right := if top_right > 0 then 1 else 0
  let middle_left := if middle_left > 0 then 1 else 0
  let middle_right := if middle_right > 0 then 1 else 0
  let bottom_left := if bottom_left > 0 then 1 else 0
  let bottom_right := if bottom_right > 0 then 1 else 0
  let character_index := top_left + (top_right <<< 1) + (middle_left <<< 2)
    + (middle_right <<< 3) + (bottom_left <<< 4) + (bottom_right <<< 5)
  SEXANT_SYMBOLS.getD character_index ' '

/-- `get_symbol_third_height` (src/lib.rs 288-290). -/
def get_symbol_third_height (top middle bottom : Nat) : Char :=
  get_symbol_sextantant_size top top middle middle bottom bottom

/-- An 8x8 font bitmap, `[u8; 8]` from the font8x8 crate: one byte per row,
bit position = column. -/
structure Glyph where
  rows : List Nat
  len8 : rows.length = 8

/-- The symbol `render_glyph` (src/lib.rs 305-373) chooses for the block of
bits sampled at `(row, col)`. Rust's unchecked `glyph[row]` indexing is
modelled by `List.getD _ _ 0`; the bounds theorem below shows the index is in
range for every row and column the iterators produce. -/
def glyphSymbol (pixel_size : PixelSize) (glyph : List Nat) (row col : Nat) : Char :=
  match pixel_size with
  | .Full =>
    match Nat.land (glyph.getD row 0) (1 <<< col) with
    | 0 => ' '
    | _ => '█'
  | .HalfHeight =>
    let top := Nat.land (glyph.getD row 0) (1 <<< col)
    let bottom := Nat.land (glyph.getD (row + 1) 0) (1 <<< col)
    get_symbol_half_height top bottom
  | .HalfWidth =>
    let left := Nat.land (glyph.getD row 0) (1 <<< col)
    let right := Nat.land (glyph.getD row 0) (1 <<< (col + 1))
    get_symbol_half_width left right
  | .Quadrant =>
    let top_left := Nat.land (glyph.getD row 0) (1 <<< col)
    let top_right := Nat.land (glyph.getD row 0) (1 <<< (col + 1))
    let bottom_left := Nat.land (glyph.getD (row + 1) 0) (1 <<< col)
    let bottom_right := Nat.land (glyph.getD (row + 1) 0) (1 <<< (col + 1))
    get_symbol_quadrant_size top_left top_right bottom_left bottom_right
  | .ThirdHeight =>
    let top := Nat.land (glyph.getD row 0) (1 <<< col)
    let middle :=
      if row + 1 < glyph.length then Nat.land (glyph.getD (row + 1) 0) (1 <<< col) else 0
    let bottom :=
      if row + 2 < glyph.length then Nat.land (glyph.getD (row + 2) 0) (1 <<< col) else 0
    get_symbol_third_height top middle bottom
  | .Sextant =>
    let top_left := Nat.land (glyph.getD row 0) (1 <<< col)
    let top_right := Nat.land (glyph.getD row 0) (1 <<< (col + 1))
    let middle_left :=
      if row + 1 < glyph.length then Nat.land (glyph.getD (row + 1) 0) (1 <<< col) else 0
    let middle_right :=
      if row + 1 < glyph.length then Nat.land (glyph.getD (row + 1) 0) (1 <<< (col + 1)) else 0
    let bottom_left :=
      if row + 2 < glyph.length then Nat.land (glyph.getD (row + 2) 0) (1 <<< col) else 0
    let bottom_right :=
      if row + 2 < glyph.length then Nat.land (glyph.getD (row + 2) 0) (1 <<< (col + 1)) else 0
    get_symbol_sextantant_size top_left top_right middle_left middle_right bottom_left bottom_right

/-- `render_glyph` (src/lib.rs 293-377): iterate the sampled bitmap rows zipped
with the cell's y range and the sampled bit columns zipped with the x range,
writing the chosen symbol into each destination cell. -/
def render_glyph (glyph : Glyph) (area : Rect) (buf : Buffer) (pixel_size : PixelSize) : Buffer :=
  let sxy := pixels_per_cell pixel_size
  let rows := (stepBy 0 glyph.rows.length sxy.2).zip (List.range' area.top (area.bottom - area.top))
  let cols := (stepBy 0 8 sxy.1).zip (List.range' area.left (area.right - area.left))
  rows.foldl
    (fun b ry =>
      cols.foldl
        (fun b cx => b.setChar cx.2 ry.2 (glyphSymbol pixel_size glyph.rows ry.1 cx.1)) b)
    buf

/-- A styled span of text, modelling ratatui `Span` (content as a list of
characters; the source takes the first codepoint of each grapheme, so one
`Char` per grapheme). -/
structure Span where
  content : List Char
  style : Style
deriving DecidableEq

/-- A line of styled text: ratatui `Line` is a sequence of spans. -/
structure Line where
  spans : List Span
deriving DecidableEq

instance : Inhabited Style := ⟨⟨none⟩⟩

instance : Inhabited Line := ⟨⟨[]⟩⟩

/-- Model of `Line::styled_graphemes(base)`: every character of every span,
paired with the base style patched by its span's style. -/
def styledGraphemes (line : Line) (base : Style) : List (Char × Style) :=
  line.spans.flatMap fun sp => sp.content.map fun ch => (ch, base.patch sp.style)

/-- The font lookup capability (`font8x8::BASIC_FONTS.get`): an optional 8x8
bitmap per character, treated by the spec as an external interface. -/
def Font : Type := Char → Option Glyph

/-- `render_symbol` (src/lib.rs 190-196): stamp the grapheme's style over the
whole layout cell, then render the glyph when the font has a bitmap for the
character. -/
def render_symbol (font : Font) (grapheme : Char × Style) (area : Rect) (buf : Buffer)
    (pixel_size : PixelSize) : Buffer :=
  let buf := buf.setStyleRect area grapheme.2
  match font grapheme.1 with
  | some glyph => render_glyph glyph area buf pixel_size
  | none => buf

/-- `BigText` (src/lib.rs 118-135). -/
structure BigText where
  lines : List Line
  style : Style
  pixel_size : PixelSize

/-- `BigText::render` (src/lib.rs 137-146): zip the lines with the layout rows,
zip each line's styled graphemes with the row's cells, and render each grapheme
into its cell. -/
def render (font : Font) (bt : BigText) (area : Rect) (buf : Buffer) : Buffer :=
  let lay := layout area bt.pixel_size
  (bt.lines.zip lay).foldl
    (fun b ll =>
      ((styledGraphemes ll.1 bt.style).zip ll.2).foldl
        (fun b gc => render_symbol font gc.1 gc.2 b bt.pixel_size) b)
    buf

/-- `BigTextBuilder` as generated by derive_builder (src/lib.rs 118-135): every
field starts unset. -/
structure BigTextBuilder where
  lines : Option (List Line)
  style : Option Style
  pixel_size : Option PixelSize

/-- `BigTextBuilder::default()`: all fields unset. -/
def BigTextBuilder.empty : BigTextBuilder := ⟨none, none, none⟩

/-- The builder's `lines(..)` setter. -/
def BigTextBuilder.setLines (b : BigTextBuilder) (v : List Line) : BigTextBuilder :=
  { b with lines := some v }

/-- The builder's `style(..)` setter. -/
def BigTextBuilder.setStyle (b : BigTextBuilder) (v : Style) : BigTextBuilder :=
  { b with style := some v }

/-- The builder's `pixel_size(..)` setter. -/
def BigTextBuilder.setPixelSize (b : BigTextBuilder) (v : PixelSize) : BigTextBuilder :=
  { b with pixel_size := some v }

/-- `BigTextBuilder::build` (derive_builder): fails iff the required `lines`
field was never set; `style` and `pixel_size` are `#[builder(default)]` fields
falling back to `Style::default()` and `PixelSize::default()` (= `Full`). -/
def BigTextBuilder.build (b : BigTextBuilder) : Except String BigText :=
  match b.lines with
  | none => .error "lines"
  | some ls => .ok ⟨ls, b.style.getD Style.defaultStyle, b.pixel_size.getD PixelSize.Full⟩

/-- Normalization of a sampled bit: nonzero counts as 1 (used to state the
symbol-table claims). -/
def bit01 (x : Nat) : Nat := if x > 0 then 1 else 0

/-- Closed-form pointwise description of `render`: the cell a point receives,
computed directly from the point's layout-cell indices. This is not a second
model of the source; it is the right-hand side of the characterization lemma
`render_apply` below, which proves it equal to `render`. -/
def renderAt (font : Font) (bt : BigText) (area : Rect) (buf : Buffer) (px py : Nat) : Cell :=
  let sxy := pixels_per_cell bt.pixel_size
  let cw := divCeil 8 sxy.1
  let ch := divCeil 8 sxy.2
  if inRect area px py then
    let i := (py - area.y) / ch
    let j := (px - area.x) / cw
    match bt.lines.get? i with
    | none => buf px py
    | some line =>
      match (styledGraphemes line bt.style).get? j with
      | none => buf px py
      | some g =>
        { style := (buf px py).style.patch g.2
          symbol :=
            match font g.1 with
            | none => (buf px py).symbol
            | some glyph =>
              glyphSymbol bt.pixel_size glyph.rows
                (sxy.2 * (py - (area.y + ch * i))) (sxy.1 * (px - (area.x + cw * j))) }
  else buf px py

/-! ### Arithmetic and `stepBy` helpers -/

theorem lt_divCeil_iff {c : Nat} (hc : 0 < c) (W j : Nat) :
    j < divCeil W c ↔ c * j < W := by
  have h : divCeil W c = W ⌈/⌉ c := rfl
  rw [h, ← Nat.not_le, ceilDiv_le_iff_le_mul hc, Nat.not_le]

theorem stepBy_length (lo hi step : Nat) :
    (stepBy lo hi step).length = divCeil (hi - lo) step :=
  List.length_range' _ _ _

theorem stepBy_getElem (lo hi step i : Nat) (h : i < (stepBy lo hi step).length) :
    (stepBy lo hi step)[i] = lo + step * i :=
  List.getElem_range' i h

theorem pixels_per_cell_pos (ps : PixelSize) :
    0 < (pixels_per_cell ps).1 ∧ 0 < (pixels_per_cell ps).2 := by
  cases ps <;> exact ⟨by decide, by decide⟩

theorem divCeil_eight_pos (ps : PixelSize) :
    0 < divCeil 8 (pixels_per_cell ps).1 ∧ 0 < divCeil 8 (pixels_per_cell ps).2 := by
  cases ps <;> exact ⟨by decide, by decide⟩

/-! ### Claim theorems: symbol tables and padding -/

/-- C1: for all inputs (nonzero counted as 1), `get_symbol_quadrant_size` is the
16-entry table entry at index `topLeft + 2·topRight + 4·bottomLeft +
8·bottomRight` and `get_symbol_sextantant_size` is the 64-entry table entry at
index `topLeft + 2·topRight + 4·middleLeft + 8·middleRight + 16·bottomLeft +
32·bottomRight`; the tables have 16 resp. 64 entries, the all-zero input maps
to the space character and the all-one input to the solid block. -/
theorem symbol_tables_match_reference :
    (∀ tl tr bl br : Nat,
      get_symbol_quadrant_size tl tr bl br =
        QUADRANT_SYMBOLS.getD (bit01 tl + 2 * bit01 tr + 4 * bit01 bl + 8 * bit01 br) ' ') ∧
    (∀ tl tr ml mr bl br : Nat,
      get_symbol_sextantant_size tl tr ml mr bl br =
        SEXANT_SYMBOLS.getD
          (bit01 tl + 2 * bit01 tr + 4 * bit01 ml + 8 * bit01 mr +
            16 * bit01 bl + 32 * bit01 br) ' ') ∧
    QUADRANT_SYMBOLS.length = 16 ∧ SEXANT_SYMBOLS.length = 64 ∧
    get_symbol_quadrant_size 0 0 0 0 = ' ' ∧
    get_symbol_quadrant_size 1 1 1 1 = '█' ∧
    get_symbol_sextantant_size 0 0 0 0 0 0 = ' ' ∧
    get_symbol_sextantant_size 1 1 1 1 1 1 = '█' := by
  refine ⟨?_, ?_, by decide, by decide, by decide, by decide, by decide, by decide⟩
  · intro tl tr bl br
    simp only [get_symbol_quadrant_size, bit01]
    congr 1
    simp only [Nat.shiftLeft_eq]
    ring
  · intro tl tr ml mr bl br
    simp only [get_symbol_sextantant_size, bit01]
    congr 1
    simp only [Nat.shiftLeft_eq]
    ring

/-- C5: the 1×3 lookup reduces to the 2×3 table by duplicating each sampled bit
across both columns, for all inputs. -/
theorem third_height_reduces_to_sextant (a b c : Nat) :
    get_symbol_third_height a b c = get_symbol_sextantant_size a a b b c c := rfl

/-- C4: for the densities whose vertical step does not divide 8, `render_glyph`
reads any bitmap row index `≥ 8` as 0: whenever `row + 2 ≥ 8` the bottom bits
are forced to 0, and concretely at the last row group (`row = 6`) ThirdHeight
and Sextant read only the two real rows 6 and 7 and substitute 0 for the
missing third row. -/
theorem third_row_padding (glyph : Glyph) (row col : Nat) :
    (8 ≤ row + 2 →
      glyphSymbol PixelSize.ThirdHeight glyph.rows row col =
        get_symbol_third_height
          (Nat.land (glyph.rows.getD row 0) (1 <<< col))
          (if row + 1 < 8 then Nat.land (glyph.rows.getD (row + 1) 0) (1 <<< col) else 0)
          0) ∧
    (8 ≤ row + 2 →
      glyphSymbol PixelSize.Sextant glyph.rows row col =
        get_symbol_sextantant_size
          (Nat.land (glyph.rows.getD row 0) (1 <<< col))
          (Nat.land (glyph.rows.getD row 0) (1 <<< (col + 1)))
          (if row + 1 < 8 then Nat.land (glyph.rows.getD (row + 1) 0) (1 <<< col) else 0)
          (if row + 1 < 8 then Nat.land (glyph.rows.getD (row + 1) 0) (1 <<< (col + 1)) else 0)
          0 0) ∧
    glyphSymbol PixelSize.ThirdHeight glyph.rows 6 col =
      get_symbol_third_height
        (Nat.land (glyph.rows.getD 6 0) (1 <<< col))
        (Nat.land (glyph.rows.getD 7 0) (1 <<< col)) 0 ∧
    glyphSymbol PixelSize.Sextant glyph.rows 6 col =
      get_symbol_sextantant_size
        (Nat.land (glyph.rows.getD 6 0) (1 <<< col))
        (Nat.land (glyph.rows.getD 6 0) (1 <<< (col + 1)))
        (Nat.land (glyph.rows.getD 7 0) (1 <<< col))
        (Nat.land (glyph.rows.getD 7 0) (1 <<< (col + 1)))
        0 0 := by
  refine ⟨?_, ?_, ?_, ?_⟩
  · intro h
    have h8 : ¬ (row + 2 < 8) := by omega
    simp [glyphSymbol, glyph.len8, h8]
  · intro h
    have h8 : ¬ (row + 2 < 8) := by omega
    simp [glyphSymbol, glyph.len8, h8]
  · simp [glyphSymbol, glyph.len8]
  · simp [glyphSymbol, glyph.len8]

/-- Witness for C4 at a concrete glyph, row 6, column 0. -/
theorem third_row_padding_witness :
    glyphSymbol PixelSize.ThirdHeight (Glyph.mk [0, 0, 0, 0, 0, 0, 1, 2] rfl).rows 6 0 =
      get_symbol_third_height
        (Nat.land ((Glyph.mk [0, 0, 0, 0, 0, 0, 1, 2] rfl).rows.getD 6 0) (1 <<< 0))
        (if 6 + 1 < 8 then
          Nat.land ((Glyph.mk [0, 0, 0, 0, 0, 0, 1, 2] rfl).rows.getD (6 + 1) 0) (1 <<< 0)
         else 0)
        0 :=
  (third_row_padding (Glyph.mk [0, 0, 0, 0, 0, 0, 1, 2] rfl) 6 0).1 (by decide)

/-- C10: the row and column indices sampled by `render_glyph`'s iterators stay
within the 8x8 bitmap: every sampled row and column is below 8, and in the arms
that access `row + 1` without a guard (HalfHeight, Quadrant) or shift by
`col + 1` (HalfWidth, Quadrant, Sextant) those indices are also below 8, so no
unchecked access is out of range. -/
theorem render_glyph_indices_in_bounds (pixel_size : PixelSize) (row col : Nat)
    (hrow : row ∈ stepBy 0 8 (pixels_per_cell pixel_size).2)
    (hcol : col ∈ stepBy 0 8 (pixels_per_cell pixel_size).1) :
    row < 8 ∧ col < 8 ∧
    ((pixel_size = PixelSize.HalfHeight ∨ pixel_size = PixelSize.Quadrant) → row + 1 < 8) ∧
    ((pixel_size = PixelSize.HalfWidth ∨ pixel_size = PixelSize.Quadrant ∨
        pixel_size = PixelSize.Sextant) → col + 1 < 8) := by
  cases pixel_size <;>
  · simp only [pixels_per_cell, stepBy, divCeil, List.mem_range'] at hrow hcol
    obtain ⟨a, ha, rfl⟩ := hrow
    obtain ⟨b, hb, rfl⟩ := hcol
    norm_num at ha hb
    refine ⟨by omega, by omega, ?_, ?_⟩ <;> rintro (h | h | h) <;> simp_all <;> omega

/-- Witness for C10 at Quadrant density, row 6, column 6. -/
theorem render_glyph_indices_in_bounds_witness : 6 + 1 < 8 ∧ 6 + 1 < 8 := by
  have h := render_glyph_indices_in_bounds PixelSize.Quadrant 6 6 (by decide) (by decide)
  exact ⟨h.2.2.1 (Or.inr rfl), h.2.2.2 (Or.inr (Or.inl rfl))⟩

/-! ### Claim theorems: layout, stdout, builder -/

theorem layout_length (area : Rect) (ps : PixelSize) :
    (layout area ps).length = divCeil area.height (divCeil 8 (pixels_per_cell ps).2) := by
  simp [layout, stepBy_length, Rect.bottom, Rect.top, Nat.add_sub_cancel_left]

theorem layout_row_length (area : Rect) (ps : PixelSize) (i : Nat)
    (hi : i < (layout area ps).length) :
    (layout area ps)[i].length = divCeil area.width (divCeil 8 (pixels_per_cell ps).1) := by
  have h' : i < (stepBy area.top area.bottom (divCeil 8 (pixels_per_cell ps).2)).length := by
    simpa [layout] using hi
  simp [layout, stepBy_length, Rect.right, Rect.left, Nat.add_sub_cancel_left]

theorem layout_getElem (area : Rect) (ps : PixelSize) (i j : Nat)
    (hi : i < (layout area ps).length)
    (hj : j < (layout area ps)[i].length) :
    (layout area ps)[i][j] =
      Rect.mk (area.left + divCeil 8 (pixels_per_cell ps).1 * j)
        (area.top + divCeil 8 (pixels_per_cell ps).2 * i)
        (min (area.right - (area.left + divCeil 8 (pixels_per_cell ps).1 * j))
          (divCeil 8 (pixels_per_cell ps).1))
        (min (area.bottom - (area.top + divCeil 8 (pixels_per_cell ps).2 * i))
          (divCeil 8 (pixels_per_cell ps).2)) := by
  simp only [layout, List.getElem_map]
  rw [stepBy_getElem, stepBy_getElem]

/-- C2: the per-density steps are as tabulated, the per-character footprint is
`ceil(8/step)` per axis, and `layout` partitions the destination rectangle into
`ceil(H/cellHeight)` rows of `ceil(W/cellWidth)` cells each, every cell lying
inside the rectangle with the trailing row/column clipped to the remainder. -/
theorem layout_partitions (ps : PixelSize) (area : Rect) :
    (pixels_per_cell PixelSize.Full = (1, 1) ∧
     pixels_per_cell PixelSize.HalfHeight = (1, 2) ∧
     pixels_per_cell PixelSize.HalfWidth = (2, 1) ∧
     pixels_per_cell PixelSize.Quadrant = (2, 2) ∧
     pixels_per_cell PixelSize.ThirdHeight = (1, 3) ∧
     pixels_per_cell PixelSize.Sextant = (2, 3)) ∧
    (layout area ps).length = divCeil area.height (divCeil 8 (pixels_per_cell ps).2) ∧
    ∀ i, ∀ hi : i < (layout area ps).length,
      (layout area ps)[i].length = divCeil area.width (divCeil 8 (pixels_per_cell ps).1) ∧
      ∀ j, ∀ hj : j < (layout area ps)[i].length,
        (layout area ps)[i][j] =
          Rect.mk (area.x + divCeil 8 (pixels_per_cell ps).1 * j)
            (area.y + divCeil 8 (pixels_per_cell ps).2 * i)
            (min (divCeil 8 (pixels_per_cell ps).1)
              (area.width - divCeil 8 (pixels_per_cell ps).1 * j))
            (min (divCeil 8 (pixels_per_cell ps).2)
              (area.height - divCeil 8 (pixels_per_cell ps).2 * i)) ∧
        area.x + divCeil 8 (pixels_per_cell ps).1 * j +
          min (divCeil 8 (pixels_per_cell ps).1)
            (area.width - divCeil 8 (pixels_per_cell ps).1 * j) ≤ area.x + area.width ∧
        area.y + divCeil 8 (pixels_per_cell ps).2 * i +
          min (divCeil 8 (pixels_per_cell ps).2)
            (area.height - divCeil 8 (pixels_per_cell ps).2 * i) ≤ area.y + area.height := by
  obtain ⟨hcw, hch⟩ := divCeil_eight_pos ps
  refine ⟨⟨rfl, rfl, rfl, rfl, rfl, rfl⟩, layout_length area ps, ?_⟩
  intro i hi
  refine ⟨layout_row_length area ps i hi, ?_⟩
  intro j hj
  have hi' : i < divCeil area.height (divCeil 8 (pixels_per_cell ps).2) := by
    rw [← layout_length area ps]; exact hi
  have hj' : j < divCeil area.width (divCeil 8 (pixels_per_cell ps).1) := by
    rw [← layout_row_length area ps i hi]; exact hj
  have hiH := (lt_divCeil_iff hch area.height i).1 hi'
  have hjW := (lt_divCeil_iff hcw area.width j).1 hj'
  refine ⟨?_, ?_, ?_⟩
  · rw [layout_getElem area ps i j hi hj]
    have e1 : area.right - (area.left + divCeil 8 (pixels_per_cell ps).1 * j) =
        area.width - divCeil 8 (pixels_per_cell ps).1 * j := by
      simp only [Rect.right, Rect.left]
      exact Nat.add_sub_add_left _ _ _
    have e2 : area.bottom - (area.top + divCeil 8 (pixels_per_cell ps).2 * i) =
        area.height - divCeil 8 (pixels_per_cell ps).2 * i := by
      simp only [Rect.bottom, Rect.top]
      exact Nat.add_sub_add_left _ _ _
    rw [e1, e2, Nat.min_comm, Nat.min_comm (area.height - _)]
    rfl
  · have h1 : min (divCeil 8 (pixels_per_cell ps).1)
        (area.width - divCeil 8 (pixels_per_cell ps).1 * j) ≤
        area.width - divCeil 8 (pixels_per_cell ps).1 * j := Nat.min_le_right _ _
    set A := divCeil 8 (pixels_per_cell ps).1 * j with hA
    omega
  · have h2 : min (divCeil 8 (pixels_per_cell ps).2)
        (area.height - divCeil 8 (pixels_per_cell ps).2 * i) ≤
        area.height - divCeil 8 (pixels_per_cell ps).2 * i := Nat.min_le_right _ _
    set B := divCeil 8 (pixels_per_cell ps).2 * i with hB
    omega

/-- Witness for C2 at Quadrant density on the rectangle (1, 2, 10, 7),
row 1, column 2 (a clipped trailing cell). -/
theorem layout_partitions_witness :
    ((layout (Rect.mk 1 2 10 7) PixelSize.Quadrant).get ⟨1, by decide⟩).get ⟨2, by decide⟩ =
      Rect.mk 9 6 2 3 := by
  have h := (layout_partitions PixelSize.Quadrant (Rect.mk 1 2 10 7)).2.2 1 (by decide)
  have h5 := (h.2 2 (by decide)).1
  simp only [List.get_eq_getElem]
  exact h5.trans (by decide)

/-- C8 (failing-input evaluation): `layout` emits output to stdout when, and
only when, the density is `Sextant` — contradicting the claim that rendering
performs no I/O for every density. -/
theorem layout_sextant_prints :
    layoutStdout PixelSize.Sextant = ["width: 4,   height: 3"] ∧
    layoutStdout PixelSize.Full = [] ∧
    layoutStdout PixelSize.HalfHeight = [] ∧
    layoutStdout PixelSize.HalfWidth = [] ∧
    layoutStdout PixelSize.Quadrant = [] ∧
    layoutStdout PixelSize.ThirdHeight = [] := by
  refine ⟨by decide, rfl, rfl, rfl, rfl, rfl⟩

/-- C9: building without `lines` fails at construction time; building with
`lines` succeeds with `pixel_size` defaulting to `Full` and `style` to the
empty style; and rendering a `BigText` with an empty list of lines returns the
buffer unchanged. -/
theorem builder_contract :
    BigTextBuilder.empty.build = Except.error "lines" ∧
    (∀ ls : List Line, (BigTextBuilder.empty.setLines ls).build =
      Except.ok (BigText.mk ls Style.defaultStyle PixelSize.Full)) ∧
    (∀ (font : Font) (st : Style) (ps : PixelSize) (area : Rect) (buf : Buffer),
      render font (BigText.mk [] st ps) area buf = buf) :=
  ⟨rfl, fun _ => rfl, fun _ _ _ _ _ => rfl⟩

/-! ### Claim theorem: unsupported characters -/

/-- C6: when the font lookup has no bitmap for a character, `render_symbol`
applies the character's style to every cell of its layout cell but writes no
symbol: the symbol of every cell is left exactly as it was, and the style is
patched inside the cell rectangle and untouched outside it. -/
theorem missing_bitmap_styles_only (font : Font) (c : Char) (st : Style) (r : Rect)
    (buf : Buffer) (ps : PixelSize) (px py : Nat) (hfont : font c = none) :
    (render_symbol font (c, st) r buf ps px py).symbol = (buf px py).symbol ∧
    (render_symbol font (c, st) r buf ps px py).style =
      (if inRect r px py then (buf px py).style.patch st else (buf px py).style) := by
  simp only [render_symbol, hfont]
  unfold Buffer.setStyleRect
  by_cases hin : inRect r px py <;> simp [hin]

/-- Witness for C6: a font with no bitmaps, styling a cell inside the layout
cell rectangle. -/
theorem missing_bitmap_styles_only_witness :
    (render_symbol (fun _ => none) ('A', Style.mk (some 1)) (Rect.mk 0 0 2 2)
        (fun _ _ => Cell.mk ' ' (Style.mk none)) PixelSize.Full 1 1).symbol = ' ' ∧
    (render_symbol (fun _ => none) ('A', Style.mk (some 1)) (Rect.mk 0 0 2 2)
        (fun _ _ => Cell.mk ' ' (Style.mk none)) PixelSize.Full 1 1).style =
      Style.mk (some 1) := by
  have h := missing_bitmap_styles_only (fun _ => none) 'A' (Style.mk (some 1)) (Rect.mk 0 0 2 2)
    (fun _ _ => Cell.mk ' ' (Style.mk none)) PixelSize.Full 1 1 rfl
  exact ⟨h.1.trans rfl, h.2.trans (by decide)⟩

/-! ### Pointwise fold infrastructure

Buffers are functions, and all primitive writes are pointwise, so a fold of
writes can be analysed one point at a time: if at most one fold step touches
the point, the fold's value there is that step's value. -/

theorem foldl_range_inactive (k : Nat) (step : Buffer → Nat → Buffer) (p q : Nat)
    (h : ∀ b i, i < k → (step b i) p q = b p q) (b : Buffer) :
    ((List.range k).foldl step b) p q = b p q := by
  induction k generalizing b with
  | zero => rfl
  | succ n ih =>
    rw [List.range_succ, List.foldl_append]
    simp only [List.foldl_cons, List.foldl_nil]
    rw [h _ n (by omega)]
    exact ih (fun b i hi => h b i (by omega)) b

theorem foldl_range_active (k i₀ : Nat) (step : Buffer → Nat → Buffer) (p q : Nat)
    (h : i₀ < k)
    (hinact : ∀ b i, i < k → i ≠ i₀ → (step b i) p q = b p q)
    (hpt : ∀ b₁ b₂, b₁ p q = b₂ p q → (step b₁ i₀) p q = (step b₂ i₀) p q)
    (b : Buffer) :
    ((List.range k).foldl step b) p q = step b i₀ p q := by
  induction k generalizing b with
  | zero => omega
  | succ n ih =>
    rw [List.range_succ, List.foldl_append]
    simp only [List.foldl_cons, List.foldl_nil]
    by_cases hn : n = i₀
    · subst hn
      exact hpt _ _ (foldl_range_inactive n step p q
        (fun b i hi => hinact b i (by omega) (by omega)) b)
    · rw [hinact _ n (by omega) hn]
      exact ih (by omega) (fun b i hi hne => hinact b i (by omega) hne) b

/-! ### Normalizing the source's iterator expressions to folds over `List.range` -/

theorem range'_eq_map (n : Nat) : ∀ s step : Nat,
    List.range' s n step = (List.range n).map (fun i => s + step * i) := by
  induction n with
  | zero => intro s step; rfl
  | succ n ih =>
    intro s step
    rw [List.range'_succ, List.range_succ_eq_map, List.map_cons, ih (s + step) step,
      List.map_map]
    simp only [Nat.mul_zero, Nat.add_zero]
    congr 1
    apply List.map_congr_left
    intro i _
    simp only [Function.comp_apply]
    rw [Nat.mul_succ]
    ring

theorem stepBy_eq_map (lo hi step : Nat) :
    stepBy lo hi step = (List.range (divCeil (hi - lo) step)).map (fun i => lo + step * i) :=
  range'_eq_map _ _ _

theorem zip_range'_eq (n : Nat) : ∀ (a s t m : Nat),
    (List.range' a n s).zip (List.range' t m) =
      (List.range (min n m)).map (fun i => (a + s * i, t + i)) := by
  induction n with
  | zero => intro a s t m; simp
  | succ n ih =>
    intro a s t m
    cases m with
    | zero => simp
    | succ m =>
      rw [List.range'_succ, List.range'_succ, List.zip_cons_cons, ih (a + s) s (t + 1) m]
      have hmin : min (n + 1) (m + 1) = min n m + 1 := by omega
      rw [hmin, List.range_succ_eq_map, List.map_cons, List.map_map]
      simp only [Nat.mul_zero, Nat.add_zero]
      congr 1
      apply List.map_congr_left
      intro i _
      simp only [Function.comp_apply, Prod.mk.injEq]
      refine ⟨?_, by omega⟩
      rw [Nat.mul_succ]
      ring

theorem zip_map_range {α β : Type} [Inhabited α] (l : List α) : ∀ (f : Nat → β) (n : Nat),
    l.zip ((List.range n).map f) =
      (List.range (min l.length n)).map (fun i => (l.getD i default, f i)) := by
  induction l with
  | nil => intro f n; simp
  | cons x l ih =>
    intro f n
    cases n with
    | zero => simp
    | succ n =>
      have hmin : min (x :: l).length (n + 1) = min l.length n + 1 := by
        simp only [List.length_cons]
        omega
      rw [List.range_succ_eq_map, List.map_cons, List.zip_cons_cons, List.map_map,
        ih (f ∘ Nat.succ) n, hmin, List.range_succ_eq_map, List.map_cons, List.map_map]
      simp only [List.getD_cons_zero]
      congr 1

/-! ### Arithmetic helpers for column/row decomposition -/

theorem mul_div_self_bounds {c : Nat} (hc : 0 < c) (a : Nat) :
    c * (a / c) ≤ a ∧ a < c * (a / c) + c := by
  have h1 := Nat.div_add_mod a c
  have h2 := Nat.mod_lt a hc
  revert h1 h2
  generalize c * (a / c) = A
  generalize a % c = M
  intro h1 h2
  omega

theorem div_lt_divCeil {c : Nat} (hc : 0 < c) {a W : Nat} (h : a < W) :
    a / c < divCeil W c := by
  rw [lt_divCeil_iff hc]
  exact Nat.lt_of_le_of_lt (mul_div_self_bounds hc a).1 h

theorem col_unique {c : Nat} (x0 px j i w : Nat) (hw : w ≤ c)
    (hi1 : c * i ≤ px - x0) (hi2 : px - x0 < c * i + c) (hx0 : x0 ≤ px) (hne : j ≠ i) :
    ¬(x0 + c * j ≤ px ∧ px < x0 + c * j + w) := by
  intro hc2
  rcases Nat.lt_or_ge j i with h | h
  · have h3 : c * (j + 1) ≤ c * i := Nat.mul_le_mul_left c h
    rw [Nat.mul_succ] at h3
    revert hi1 hc2 h3
    generalize c * j = B
    generalize c * i = A
    intro hi1 hc2 h3
    omega
  · have h4 : i < j := by omega
    have h3 : c * (i + 1) ≤ c * j := Nat.mul_le_mul_left c h4
    rw [Nat.mul_succ] at h3
    revert hi2 hc2 h3
    generalize c * j = B
    generalize c * i = A
    intro hi2 hc2 h3
    omega

/-! ### Pointwise characterization of `render_glyph` and `render_symbol` -/

theorem setChar_cols_apply (f : Nat → Char) (xStart y kc : Nat) (b : Buffer) (px py : Nat) :
    ((List.range kc).foldl (fun b j => Buffer.setChar b (xStart + j) y (f j)) b) px py =
      if py = y ∧ xStart ≤ px ∧ px < xStart + kc then
        Cell.mk (f (px - xStart)) ((b px py).style)
      else b px py := by
  by_cases h : py = y ∧ xStart ≤ px ∧ px < xStart + kc
  · rw [if_pos h]
    obtain ⟨hy, hx1, hx2⟩ := h
    refine Eq.trans (foldl_range_active kc (px - xStart)
      (fun b j => Buffer.setChar b (xStart + j) y (f j)) px py (by omega) ?_ ?_ b) ?_
    · intro b i hi hne
      simp only [Buffer.setChar]
      rw [if_neg (by omega)]
    · intro b₁ b₂ hb
      simp only [Buffer.setChar]
      rw [hb]
    · simp only [Buffer.setChar]
      rw [if_pos ⟨by omega, hy⟩]
  · rw [if_neg h]
    refine foldl_range_inactive kc _ px py (fun b i hi => ?_) b
    simp only [Buffer.setChar]
    rw [if_neg (by omega)]

theorem setChar_rows_apply (g : Nat → Nat → Char) (xStart yStart kr kc : Nat) (b : Buffer)
    (px py : Nat) :
    ((List.range kr).foldl
        (fun b i => (List.range kc).foldl
          (fun b j => Buffer.setChar b (xStart + j) (yStart + i) (g i j)) b) b) px py =
      if yStart ≤ py ∧ py < yStart + kr ∧ xStart ≤ px ∧ px < xStart + kc then
        Cell.mk (g (py - yStart) (px - xStart)) ((b px py).style)
      else b px py := by
  by_cases hy : yStart ≤ py ∧ py < yStart + kr
  · obtain ⟨hy1, hy2⟩ := hy
    refine Eq.trans (foldl_range_active kr (py - yStart)
      (fun b i => (List.range kc).foldl
        (fun b j => Buffer.setChar b (xStart + j) (yStart + i) (g i j)) b) px py
      (by omega) ?_ ?_ b) ?_
    · intro b i hi hne
      dsimp only
      rw [setChar_cols_apply]
      rw [if_neg (by omega)]
    · intro b₁ b₂ hb
      dsimp only
      rw [setChar_cols_apply, setChar_cols_apply, hb]
    · dsimp only
      rw [setChar_cols_apply]
      by_cases hx : xStart ≤ px ∧ px < xStart + kc
      · rw [if_pos ⟨by omega, hx.1, hx.2⟩, if_pos ⟨hy1, hy2, hx.1, hx.2⟩]
      · rw [if_neg (by omega), if_neg (by omega)]
  · rw [if_neg (by omega)]
    refine foldl_range_inactive kr _ px py (fun b i hi => ?_) b
    rw [setChar_cols_apply]
    rw [if_neg (by omega)]

theorem render_glyph_apply (glyph : Glyph) (r : Rect) (buf : Buffer) (ps : PixelSize)
    (px py : Nat) :
    render_glyph glyph r buf ps px py =
      if r.y ≤ py ∧ py < r.y + min (divCeil 8 (pixels_per_cell ps).2) r.height ∧
          r.x ≤ px ∧ px < r.x + min (divCeil 8 (pixels_per_cell ps).1) r.width then
        Cell.mk
          (glyphSymbol ps glyph.rows ((pixels_per_cell ps).2 * (py - r.y))
            ((pixels_per_cell ps).1 * (px - r.x)))
          ((buf px py).style)
      else buf px py := by
  simp only [render_glyph, stepBy, glyph.len8, Rect.bottom, Rect.top, Rect.left, Rect.right]
  simp only [zip_range'_eq, Nat.sub_zero, Nat.zero_add, Nat.add_sub_cancel_left,
    List.foldl_map]
  rw [setChar_rows_apply]

theorem render_symbol_apply (font : Font) (gr : Char × Style) (r : Rect) (buf : Buffer)
    (ps : PixelSize) (px py : Nat) :
    render_symbol font gr r buf ps px py =
      if inRect r px py then
        Cell.mk
          (match font gr.1 with
           | none => (buf px py).symbol
           | some glyph =>
             if py < r.y + min (divCeil 8 (pixels_per_cell ps).2) r.height ∧
                 px < r.x + min (divCeil 8 (pixels_per_cell ps).1) r.width then
               glyphSymbol ps glyph.rows ((pixels_per_cell ps).2 * (py - r.y))
                 ((pixels_per_cell ps).1 * (px - r.x))
             else (buf px py).symbol)
          ((buf px py).style.patch gr.2)
      else buf px py := by
  cases hfont : font gr.1 with
  | none =>
    simp only [render_symbol, hfont]
    rfl
  | some glyph =>
    simp only [render_symbol, hfont]
    rw [render_glyph_apply]
    have hin' : inRect r px py ↔
        (r.x ≤ px ∧ px < r.x + r.width ∧ r.y ≤ py ∧ py < r.y + r.height) := by
      simp [inRect, Rect.left, Rect.right, Rect.top, Rect.bottom]
    by_cases hin : inRect r px py
    · rw [hin'] at hin
      by_cases hB : py < r.y + min (divCeil 8 (pixels_per_cell ps).2) r.height ∧
          px < r.x + min (divCeil 8 (pixels_per_cell ps).1) r.width
      · rw [if_pos ⟨by omega, hB.1, by omega, hB.2⟩, if_pos (hin'.2 hin)]
        simp only [Buffer.setStyleRect, if_pos (hin'.2 hin)]
        rw [if_pos hB]
      · have hnA : ¬ (r.y ≤ py ∧ py < r.y + min (divCeil 8 (pixels_per_cell ps).2) r.height ∧
            r.x ≤ px ∧ px < r.x + min (divCeil 8 (pixels_per_cell ps).1) r.width) := by
          omega
        rw [if_neg hnA, if_pos (hin'.2 hin)]
        simp only [Buffer.setStyleRect, if_pos (hin'.2 hin)]
        rw [if_neg hB]
    · have hnin := hin
      rw [hin'] at hnin
      have hnA : ¬ (r.y ≤ py ∧ py < r.y + min (divCeil 8 (pixels_per_cell ps).2) r.height ∧
          r.x ≤ px ∧ px < r.x + min (divCeil 8 (pixels_per_cell ps).1) r.width) := by
        have h1 : min (divCeil 8 (pixels_per_cell ps).2) r.height ≤ r.height :=
          Nat.min_le_right _ _
        have h2 : min (divCeil 8 (pixels_per_cell ps).1) r.width ≤ r.width :=
          Nat.min_le_right _ _
        omega
      rw [if_neg hnA, if_neg hin]
      simp only [Buffer.setStyleRect, if_neg hin]

theorem render_symbol_outside (font : Font) (gr : Char × Style) (r : Rect) (b : Buffer)
    (ps : PixelSize) (px py : Nat) (h : ¬ inRect r px py) :
    render_symbol font gr r b ps px py = b px py := by
  rw [render_symbol_apply, if_neg h]

/-- Pointwise description of one line's fold over its zipped graphemes and
layout cells: the point receives the grapheme of the column it falls in, if
any. -/
theorem line_fold_apply (font : Font) (ps : PixelSize) (gs : List (Char × Style))
    (x0 W yR hR k : Nat)
    (hhR : hR ≤ divCeil 8 (pixels_per_cell ps).2)
    (b : Buffer) (px py : Nat) :
    ((List.range k).foldl
        (fun b j => render_symbol font (gs.getD j default)
          (Rect.mk (x0 + divCeil 8 (pixels_per_cell ps).1 * j) yR
            (min (x0 + W - (x0 + divCeil 8 (pixels_per_cell ps).1 * j))
              (divCeil 8 (pixels_per_cell ps).1))
            hR) b ps) b) px py =
      if yR ≤ py ∧ py < yR + hR ∧ x0 ≤ px ∧ px < x0 + W ∧
          (px - x0) / divCeil 8 (pixels_per_cell ps).1 < k then
        Cell.mk
          (match font (gs.getD ((px - x0) / divCeil 8 (pixels_per_cell ps).1) default).1 with
           | none => (b px py).symbol
           | some glyph =>
             glyphSymbol ps glyph.rows
               ((pixels_per_cell ps).2 * (py - yR))
               ((pixels_per_cell ps).1 *
                 (px - (x0 + divCeil 8 (pixels_per_cell ps).1 *
                   ((px - x0) / divCeil 8 (pixels_per_cell ps).1)))))
          ((b px py).style.patch
            (gs.getD ((px - x0) / divCeil 8 (pixels_per_cell ps).1) default).2)
      else b px py := by
  have hcw : 0 < divCeil 8 (pixels_per_cell ps).1 := (divCeil_eight_pos ps).1
  have hdiv := mul_div_self_bounds hcw (px - x0)
  by_cases hcond : yR ≤ py ∧ py < yR + hR ∧ x0 ≤ px ∧ px < x0 + W ∧
      (px - x0) / divCeil 8 (pixels_per_cell ps).1 < k
  · obtain ⟨h1, h2, h3, h4, h5⟩ := hcond
    rw [if_pos ⟨h1, h2, h3, h4, h5⟩]
    refine Eq.trans (foldl_range_active k ((px - x0) / divCeil 8 (pixels_per_cell ps).1)
      _ px py h5 ?_ ?_ b) ?_
    · intro b j hj hne
      dsimp only
      refine render_symbol_outside font _ _ b ps px py ?_
      intro hin
      simp only [inRect, Rect.left, Rect.right, Rect.top, Rect.bottom] at hin
      exact col_unique x0 px j ((px - x0) / divCeil 8 (pixels_per_cell ps).1)
        (min (x0 + W - (x0 + divCeil 8 (pixels_per_cell ps).1 * j))
          (divCeil 8 (pixels_per_cell ps).1))
        (Nat.min_le_right _ _) hdiv.1 hdiv.2 h3 hne ⟨hin.1, hin.2.1⟩
    · intro b₁ b₂ hb
      dsimp only
      rw [render_symbol_apply, render_symbol_apply, hb]
    · dsimp only
      rw [render_symbol_apply]
      have hin : inRect
          (Rect.mk
            (x0 + divCeil 8 (pixels_per_cell ps).1 *
              ((px - x0) / divCeil 8 (pixels_per_cell ps).1)) yR
            (min (x0 + W - (x0 + divCeil 8 (pixels_per_cell ps).1 *
                ((px - x0) / divCeil 8 (pixels_per_cell ps).1)))
              (divCeil 8 (pixels_per_cell ps).1))
            hR) px py := by
        simp only [inRect, Rect.left, Rect.right, Rect.top, Rect.bottom]
        obtain ⟨hd1, hd2⟩ := hdiv
        refine ⟨by omega, ?_, h1, by omega⟩
        revert hd1 hd2 h4
        generalize divCeil 8 (pixels_per_cell ps).1 *
          ((px - x0) / divCeil 8 (pixels_per_cell ps).1) = A
        intro hd1 hd2 h4
        omega
      rw [if_pos hin]
      simp only [inRect, Rect.left, Rect.right, Rect.top, Rect.bottom] at hin
      have hmin1 : min (divCeil 8 (pixels_per_cell ps).2) hR = hR := min_eq_right hhR
      have hmin2 : min (divCeil 8 (pixels_per_cell ps).1)
          (min (x0 + W - (x0 + divCeil 8 (pixels_per_cell ps).1 *
              ((px - x0) / divCeil 8 (pixels_per_cell ps).1)))
            (divCeil 8 (pixels_per_cell ps).1)) =
          min (x0 + W - (x0 + divCeil 8 (pixels_per_cell ps).1 *
              ((px - x0) / divCeil 8 (pixels_per_cell ps).1)))
            (divCeil 8 (pixels_per_cell ps).1) :=
        min_eq_right (min_le_right _ _)
      cases hfg : font (gs.getD ((px - x0) / divCeil 8 (pixels_per_cell ps).1) default).1 with
      | none => rfl
      | some glyph =>
        dsimp only
        rw [if_pos ⟨by rw [hmin1]; omega, by rw [hmin2]; exact hin.2.1⟩]
  · rw [if_neg hcond]
    refine foldl_range_inactive k _ px py (fun b j hj => ?_) b
    dsimp only
    refine render_symbol_outside font _ _ b ps px py ?_
    intro hin
    simp only [inRect, Rect.left, Rect.right, Rect.top, Rect.bottom] at hin
    have key : divCeil 8 (pixels_per_cell ps).1 * j ≤ px - x0 ∧
        px - x0 < divCeil 8 (pixels_per_cell ps).1 * j + divCeil 8 (pixels_per_cell ps).1 ∧
        x0 ≤ px ∧ px < x0 + W := by
      obtain ⟨hin1, hin2, hin3, hin4⟩ := hin
      revert hin1 hin2
      generalize divCeil 8 (pixels_per_cell ps).1 * j = B
      intro hin1 hin2
      omega
    have hj2 : (px - x0) / divCeil 8 (pixels_per_cell ps).1 = j :=
      Nat.div_eq_of_lt_le (by rw [Nat.mul_comm]; exact key.1)
        (by rw [Nat.succ_mul, Nat.mul_comm]; exact key.2.1)
    exact hcond ⟨hin.2.2.1, hin.2.2.2, key.2.2.1, key.2.2.2, by rw [hj2]; exact hj⟩

set_option maxHeartbeats 1000000 in
/-- Pointwise characterization of `render`: at every point the rendered
buffer equals the closed-form `renderAt`. -/
theorem render_apply (font : Font) (bt : BigText) (area : Rect) (buf : Buffer) (px py : Nat) :
    render font bt area buf px py = renderAt font bt area buf px py := by
  simp only [render, layout, stepBy_eq_map, Rect.top, Rect.bottom, Rect.left, Rect.right,
    Nat.add_sub_cancel_left, List.map_map]
  simp only [zip_map_range, List.foldl_map, Function.comp_apply]
  have hcw : 0 < divCeil 8 (pixels_per_cell bt.pixel_size).1 := (divCeil_eight_pos _).1
  have hch : 0 < divCeil 8 (pixels_per_cell bt.pixel_size).2 := (divCeil_eight_pos _).2
  have hdy := mul_div_self_bounds hch (py - area.y)
  simp only [renderAt]
  by_cases hin : inRect area px py
  · have hin2 : area.x ≤ px ∧ px < area.x + area.width ∧ area.y ≤ py ∧
        py < area.y + area.height := by
      simpa [inRect, Rect.left, Rect.right, Rect.top, Rect.bottom] using hin
    obtain ⟨hx1, hx2, hy1, hy2⟩ := hin2
    rw [if_pos hin]
    have hir : (py - area.y) / divCeil 8 (pixels_per_cell bt.pixel_size).2 <
        divCeil area.height (divCeil 8 (pixels_per_cell bt.pixel_size).2) :=
      div_lt_divCeil hch (by omega)
    by_cases hK : (py - area.y) / divCeil 8 (pixels_per_cell bt.pixel_size).2 < bt.lines.length
    · have hlg : bt.lines.get? ((py - area.y) / divCeil 8 (pixels_per_cell bt.pixel_size).2) =
          some (bt.lines.getD ((py - area.y) / divCeil 8 (pixels_per_cell bt.pixel_size).2)
            default) := by
        rw [List.get?_eq_getElem?, List.getElem?_eq_getElem hK,
          List.getD_eq_getElem _ _ hK]
      rw [hlg]
      refine Eq.trans (foldl_range_active
        (bt.lines.length ⊓ divCeil area.height (divCeil 8 (pixels_per_cell bt.pixel_size).2))
        ((py - area.y) / divCeil 8 (pixels_per_cell bt.pixel_size).2)
        _ px py (by omega) ?_ ?_ buf) ?_
      · intro b i hi hne
        dsimp only
        rw [line_fold_apply font bt.pixel_size _ area.x area.width _ _ _
          (Nat.min_le_right _ _) b px py]
        have hcu := col_unique area.y py i
          ((py - area.y) / divCeil 8 (pixels_per_cell bt.pixel_size).2)
          (min (area.y + area.height -
              (area.y + divCeil 8 (pixels_per_cell bt.pixel_size).2 * i))
            (divCeil 8 (pixels_per_cell bt.pixel_size).2))
          (Nat.min_le_right _ _) hdy.1 hdy.2 hy1 hne
        rw [if_neg (fun hc => hcu ⟨hc.1, hc.2.1⟩)]
      · intro b₁ b₂ hb
        dsimp only
        rw [line_fold_apply font bt.pixel_size _ area.x area.width _ _ _
          (Nat.min_le_right _ _) b₁ px py,
          line_fold_apply font bt.pixel_size _ area.x area.width _ _ _
          (Nat.min_le_right _ _) b₂ px py, hb]
      · dsimp only
        rw [line_fold_apply font bt.pixel_size _ area.x area.width _ _ _
          (Nat.min_le_right _ _) buf px py]
        by_cases hj : (px - area.x) / divCeil 8 (pixels_per_cell bt.pixel_size).1 <
            (styledGraphemes (bt.lines.getD
              ((py - area.y) / divCeil 8 (pixels_per_cell bt.pixel_size).2) default)
              bt.style).length
        · have hgg : (styledGraphemes (bt.lines.getD
              ((py - area.y) / divCeil 8 (pixels_per_cell bt.pixel_size).2) default)
              bt.style).get? ((px - area.x) / divCeil 8 (pixels_per_cell bt.pixel_size).1) =
              some ((styledGraphemes (bt.lines.getD
                ((py - area.y) / divCeil 8 (pixels_per_cell bt.pixel_size).2) default)
                bt.style).getD
                ((px - area.x) / divCeil 8 (pixels_per_cell bt.pixel_size).1) default) := by
            rw [List.get?_eq_getElem?, List.getElem?_eq_getElem hj,
              List.getD_eq_getElem _ _ hj]
          rw [hgg]
          have hc5 : (px - area.x) / divCeil 8 (pixels_per_cell bt.pixel_size).1 <
              (styledGraphemes (bt.lines.getD
                ((py - area.y) / divCeil 8 (pixels_per_cell bt.pixel_size).2) default)
                bt.style).length ⊓
                divCeil area.width (divCeil 8 (pixels_per_cell bt.pixel_size).1) :=
            Nat.lt_min.mpr ⟨hj, div_lt_divCeil hcw (by omega)⟩
          obtain ⟨hd1, hd2⟩ := hdy
          have hc1 : area.y + divCeil 8 (pixels_per_cell bt.pixel_size).2 *
              ((py - area.y) / divCeil 8 (pixels_per_cell bt.pixel_size).2) ≤ py := by
            revert hd1
            generalize divCeil 8 (pixels_per_cell bt.pixel_size).2 *
              ((py - area.y) / divCeil 8 (pixels_per_cell bt.pixel_size).2) = A
            intro hd1
            omega
          have hc2 : py < area.y + divCeil 8 (pixels_per_cell bt.pixel_size).2 *
              ((py - area.y) / divCeil 8 (pixels_per_cell bt.pixel_size).2) +
              min (area.y + area.height -
                (area.y + divCeil 8 (pixels_per_cell bt.pixel_size).2 *
                  ((py - area.y) / divCeil 8 (pixels_per_cell bt.pixel_size).2)))
                (divCeil 8 (pixels_per_cell bt.pixel_size).2) := by
            revert hd1 hd2
            generalize divCeil 8 (pixels_per_cell bt.pixel_size).2 *
              ((py - area.y) / divCeil 8 (pixels_per_cell bt.pixel_size).2) = A
            intro hd1 hd2
            omega
          rw [if_pos ⟨hc1, hc2, hx1, hx2, hc5⟩]
        · have hgg : (styledGraphemes (bt.lines.getD
              ((py - area.y) / divCeil 8 (pixels_per_cell bt.pixel_size).2) default)
              bt.style).get? ((px - area.x) / divCeil 8 (pixels_per_cell bt.pixel_size).1) =
              none := by
            rw [List.get?_eq_getElem?]
            exact List.getElem?_eq_none (by omega)
          rw [hgg]
          rw [if_neg (fun hc => hj (Nat.lt_min.mp hc.2.2.2.2).1)]
    · have hlg : bt.lines.get? ((py - area.y) / divCeil 8 (pixels_per_cell bt.pixel_size).2) =
          none := by
        rw [List.get?_eq_getElem?]
        exact List.getElem?_eq_none (by omega)
      rw [hlg]
      refine foldl_range_inactive _ _ px py (fun b i hi => ?_) buf
      dsimp only
      rw [line_fold_apply font bt.pixel_size _ area.x area.width _ _ _
        (Nat.min_le_right _ _) b px py]
      have hcu := col_unique area.y py i
        ((py - area.y) / divCeil 8 (pixels_per_cell bt.pixel_size).2)
        (min (area.y + area.height -
            (area.y + divCeil 8 (pixels_per_cell bt.pixel_size).2 * i))
          (divCeil 8 (pixels_per_cell bt.pixel_size).2))
        (Nat.min_le_right _ _) hdy.1 hdy.2 hy1 (by omega)
      rw [if_neg (fun hc => hcu ⟨hc.1, hc.2.1⟩)]
  · rw [if_neg hin]
    have hnot : ¬ (area.x ≤ px ∧ px < area.x + area.width ∧ area.y ≤ py ∧
        py < area.y + area.height) := by
      intro hc
      exact hin (by simp [inRect, Rect.left, Rect.right, Rect.top, Rect.bottom]; omega)
    refine foldl_range_inactive _ _ px py (fun b i hi => ?_) buf
    dsimp only
    rw [line_fold_apply font bt.pixel_size _ area.x area.width _ _ _
      (Nat.min_le_right _ _) b px py]
    rw [if_neg ?_]
    intro hc
    obtain ⟨hc1, hc2, hc3, hc4, hc5⟩ := hc
    apply hnot
    revert hc1 hc2
    generalize divCeil 8 (pixels_per_cell bt.pixel_size).2 * i = A
    intro hc1 hc2
    omega

/-! ### Claim theorems: truncation idempotence and style propagation -/

/-- C3: truncation idempotence — for every text, density, font and pair of
rectangles with the same top-left corner where one contains the other,
rendering into the smaller rectangle produces, at every point of the smaller
rectangle, exactly the same cell (symbol and style) as rendering into the
larger rectangle. -/
theorem render_truncation_idempotent (font : Font) (bt : BigText) (x0 y0 w1 h1 w2 h2 : Nat)
    (buf : Buffer) (px py : Nat)
    (hw : w1 ≤ w2) (hh : h1 ≤ h2)
    (hx1 : x0 ≤ px) (hx2 : px < x0 + w1) (hy1 : y0 ≤ py) (hy2 : py < y0 + h1) :
    render font bt (Rect.mk x0 y0 w1 h1) buf px py =
      render font bt (Rect.mk x0 y0 w2 h2) buf px py := by
  rw [render_apply, render_apply]
  simp only [renderAt]
  have hin1 : inRect (Rect.mk x0 y0 w1 h1) px py := by
    simp only [inRect, Rect.left, Rect.right, Rect.top, Rect.bottom]
    omega
  have hin2 : inRect (Rect.mk x0 y0 w2 h2) px py := by
    simp only [inRect, Rect.left, Rect.right, Rect.top, Rect.bottom]
    omega
  rw [if_pos hin1, if_pos hin2]

/-- Witness for C3 at a concrete font, text, and pair of rectangles. -/
theorem render_truncation_idempotent_witness :
    render (fun c => if c = 'I' then some (Glyph.mk [1, 2, 4, 8, 16, 32, 64, 128] rfl) else none)
        (BigText.mk [Line.mk [Span.mk ['I'] (Style.mk (some 5))]] (Style.mk none) PixelSize.Full)
        (Rect.mk 0 0 4 4) (fun _ _ => Cell.mk ' ' (Style.mk none)) 2 1 =
      render (fun c => if c = 'I' then some (Glyph.mk [1, 2, 4, 8, 16, 32, 64, 128] rfl) else none)
        (BigText.mk [Line.mk [Span.mk ['I'] (Style.mk (some 5))]] (Style.mk none) PixelSize.Full)
        (Rect.mk 0 0 8 8) (fun _ _ => Cell.mk ' ' (Style.mk none)) 2 1 :=
  render_truncation_idempotent
    (fun c => if c = 'I' then some (Glyph.mk [1, 2, 4, 8, 16, 32, 64, 128] rfl) else none)
    (BigText.mk [Line.mk [Span.mk ['I'] (Style.mk (some 5))]] (Style.mk none) PixelSize.Full)
    0 0 4 4 8 8 (fun _ _ => Cell.mk ' ' (Style.mk none)) 2 1
    (by decide) (by decide) (by decide) (by decide) (by decide) (by decide)

/-- C7 counterexample: the claim "every cell within a line's vertical extent
carries that line's style" fails on the code as stated: with one line "A"
(span style `some 1`, base style empty) rendered at Full density into a
16-wide rectangle, the point (8, 0) is inside the rectangle and inside the
line's vertical extent (rows 0..7), yet after rendering its style is still the
empty style, not the line's patched style — the code styles only the layout
cells of characters that are present. -/
theorem style_propagation_counterexample :
    ((0:Nat) ≤ 8 ∧ 8 < 16 ∧ (0:Nat) ≤ 0 ∧ (0:Nat) < 8) ∧
    ((render (fun _ => none)
        (BigText.mk [Line.mk [Span.mk ['A'] (Style.mk (some 1))]] (Style.mk none) PixelSize.Full)
        (Rect.mk 0 0 16 8) (fun _ _ => Cell.mk ' ' (Style.mk none))) 8 0).style ≠
      (Style.mk none).patch (Style.mk (some 1)) := by
  exact ⟨by decide, by decide⟩

/-- C7 (amended): every cell inside the layout cell of a character that is
actually rendered (line `i`, column `j` of that line's graphemes) carries the
base style patched by that character's span style — including characters with
no bitmap, since no assumption is made on the font — and writing glyph symbols
never alters any cell's style. -/
theorem style_propagation (font : Font) (bt : BigText) (area : Rect) (buf : Buffer)
    (px py : Nat) (line : Line) (g : Char × Style)
    (hin : inRect area px py)
    (hline : bt.lines.get?
      ((py - area.y) / divCeil 8 (pixels_per_cell bt.pixel_size).2) = some line)
    (hg : (styledGraphemes line bt.style).get?
      ((px - area.x) / divCeil 8 (pixels_per_cell bt.pixel_size).1) = some g) :
    ((render font bt area buf) px py).style = ((buf px py).style.patch g.2) ∧
    ∀ (glyph : Glyph) (r : Rect) (b : Buffer) (q1 q2 : Nat),
      ((render_glyph glyph r b bt.pixel_size) q1 q2).style = (b q1 q2).style := by
  constructor
  · rw [render_apply]
    simp only [renderAt]
    rw [if_pos hin, hline]
    dsimp only
    rw [hg]
  · intro glyph r b q1 q2
    rw [render_glyph_apply]
    split
    · rfl
    · rfl

/-- Witness for C7's amended claim at a concrete single-character text. -/
theorem style_propagation_witness :
    ((render (fun _ => none)
        (BigText.mk [Line.mk [Span.mk ['A'] (Style.mk (some 2))]] (Style.mk none) PixelSize.Full)
        (Rect.mk 0 0 8 8) (fun _ _ => Cell.mk ' ' (Style.mk none))) 3 4).style =
      ((Cell.mk ' ' (Style.mk none)).style.patch (Style.mk (some 2))) :=
  (style_propagation (fun _ => none)
    (BigText.mk [Line.mk [Span.mk ['A'] (Style.mk (some 2))]] (Style.mk none) PixelSize.Full)
    (Rect.mk 0 0 8 8) (fun _ _ => Cell.mk ' ' (Style.mk none)) 3 4
    (Line.mk [Span.mk ['A'] (Style.mk (some 2))])
    ('A', (Style.mk none).patch (Style.mk (some 2)))
    (by decide) (by decide) (by decide)).1

end TuiBigText
